import Mathlib

/-!
Verification development for the rambda gateway (src/src/lib.rs and friends).

The Rust source is shallowly embedded:
* pure data (`AWSRequestId`, `RequestEvent`, `EventResponse`, `Runtime`) become
  Lean structures; JSON object payloads (`serde_json::Map<String, Value>`) are
  abstracted to association lists of strings, which preserves equality tests;
* the tokio `mpsc::channel(1)` behind `RequestChannel` becomes a bounded queue
  of capacity 1, with a step function over an operation list standing for an
  arbitrary interleaving of producers and consumers;
* the `ResponseMap` (two `HashMap`s of `oneshot` halves) becomes an explicit
  state machine: a heap of one-shot channels plus the two association maps,
  driven by an operation trace; awaiting (`get_response`) is split into its
  two phases (removing the receiver half / the suspended `rx.await` resolving)
  so that interleavings with re-registration and deposits are expressible;
* `unwrap()` / `panic!` sites are modelled by an explicit `panicked` outcome.
-/

/-- `AWSRequestId(pub String)` from src/src/lib.rs. -/
structure AWSRequestId where
  s : String
deriving DecidableEq, Repr

/-- `RequestEvent(pub Map<String, Value>)` from src/src/types.rs; JSON values
abstracted to strings. -/
structure RequestEvent where
  body : List (String × String)
deriving DecidableEq, Repr

/-- `EventResponse(pub Map<String, Value>)` from src/src/types.rs; JSON values
abstracted to strings. -/
structure EventResponse where
  body : List (String × String)
deriving DecidableEq, Repr

/-! ## Request rendezvous (`RequestChannel`, src/src/lib.rs lines 154-202)

`RequestChannel::new` builds `mpsc::channel(1)`: a bounded queue of capacity 1.
We model the buffer contents directly; `try_send` succeeds exactly when the
buffer has room, `recv` pops the front. -/

/-- The bound passed to `mpsc::channel(1)` in `RequestChannel::new`. -/
def channelCapacity : Nat := 1

/-- The buffered contents of the `mpsc::channel(1)` inside `RequestChannel`. -/
structure RequestChannel where
  buf : List (AWSRequestId × RequestEvent)
deriving DecidableEq, Repr

/-- `RequestChannel::new()`: a fresh, empty channel. -/
def RequestChannel.new : RequestChannel := ⟨[]⟩

/-- `SendRequestEventToChannelError` from src/src/lib.rs. -/
inductive SendRequestEventToChannelError
  | FailedToSend
  | SenderAlreadyTaken
  | RequestIdNotFound
deriving DecidableEq, Repr

/-- `RequestChannel::send_request`: `tx.try_send((id, event))`.  `try_send` on
a bounded tokio channel succeeds if and only if the buffer is below capacity;
it never suspends the caller (it is a plain total function here).  Any failure
is collapsed to `FailedToSend`, as in the source. -/
def RequestChannel.send_request (c : RequestChannel) (id : AWSRequestId)
    (ev : RequestEvent) : Except SendRequestEventToChannelError RequestChannel :=
  if c.buf.length < channelCapacity then .ok ⟨c.buf ++ [(id, ev)]⟩
  else .error .FailedToSend

/-- `RequestChannel::recv_request`: `rx.recv().await`.  `none` here stands for
"no message buffered" (the caller would suspend); a closed channel cannot arise
while both halves live in `AppState`. -/
def RequestChannel.recv_request (c : RequestChannel) :
    Option ((AWSRequestId × RequestEvent) × RequestChannel) :=
  match c.buf with
  | [] => none
  | p :: rest => some (p, ⟨rest⟩)

/-- One interaction with the channel: a producer's `try_send` attempt or a
consumer's `recv`.  Failed sends and empty receives leave the state unchanged. -/
inductive ChanOp
  | send (id : AWSRequestId) (ev : RequestEvent)
  | recv
deriving DecidableEq, Repr

/-- Effect of one `ChanOp` on the channel state. -/
def chanStep (c : RequestChannel) : ChanOp → RequestChannel
  | .send id ev =>
      match c.send_request id ev with
      | .ok c' => c'
      | .error _ => c
  | .recv =>
      match c.recv_request with
      | some (_, c') => c'
      | none => c

/-- The channel state after an arbitrary finite interleaving of sends and
receives, starting from `RequestChannel::new()`. -/
def chanRun (ops : List ChanOp) : RequestChannel :=
  ops.foldl chanStep RequestChannel.new

theorem chanStep_length_le (c : RequestChannel) (op : ChanOp)
    (h : c.buf.length ≤ 1) : (chanStep c op).buf.length ≤ 1 := by
  cases op with
  | send id ev =>
      by_cases hlt : c.buf.length < channelCapacity
      · have hbuf : c.buf.length = 0 := by
          simpa [channelCapacity] using hlt
        have hstep : chanStep c (.send id ev) = ⟨c.buf ++ [(id, ev)]⟩ := by
          simp [chanStep, RequestChannel.send_request, hlt]
        rw [hstep]
        simp [hbuf]
      · have hstep : chanStep c (.send id ev) = c := by
          simp [chanStep, RequestChannel.send_request, hlt]
        rw [hstep]; exact h
  | recv =>
      cases hbuf : c.buf with
      | nil =>
          have hstep : chanStep c .recv = c := by
            simp [chanStep, RequestChannel.recv_request, hbuf]
          rw [hstep]; exact h
      | cons p rest =>
          have hstep : chanStep c .recv = ⟨rest⟩ := by
            simp [chanStep, RequestChannel.recv_request, hbuf]
          rw [hstep]
          rw [hbuf] at h
          simp only [List.length_cons] at h
          show rest.length ≤ 1
          omega

theorem chanRun_aux (ops : List ChanOp) :
    ∀ c : RequestChannel, c.buf.length ≤ 1 →
      (ops.foldl chanStep c).buf.length ≤ 1 := by
  induction ops with
  | nil => intro c h; simpa using h
  | cons op ops ih =>
      intro c h
      simpa [List.foldl_cons] using ih (chanStep c op) (chanStep_length_le c op h)

/-- C5: in every reachable channel state the rendezvous buffers at most one
pending `(id, event)` pair, and `send_request` (a total, non-suspending
function) returns `FailedToSend` exactly when the slot is occupied and `ok`
(buffering the pair) exactly when it is empty. -/
theorem send_request_single_slot (ops : List ChanOp) :
    (chanRun ops).buf.length ≤ 1 ∧
    ∀ (id : AWSRequestId) (ev : RequestEvent),
      ((chanRun ops).buf = [] →
        (chanRun ops).send_request id ev = .ok ⟨[(id, ev)]⟩) ∧
      ((chanRun ops).buf ≠ [] →
        (chanRun ops).send_request id ev = .error .FailedToSend) := by
  have hlen : (chanRun ops).buf.length ≤ 1 := by
    have := chanRun_aux ops RequestChannel.new (by simp [RequestChannel.new])
    simpa [chanRun] using this
  refine ⟨hlen, ?_⟩
  intro id ev
  constructor
  · intro hempty
    simp [RequestChannel.send_request, hempty, channelCapacity]
  · intro hne
    have h1 : 1 ≤ (chanRun ops).buf.length := by
      cases hbuf : (chanRun ops).buf with
      | nil => exact absurd hbuf hne
      | cons p rest => simp [hbuf]
    have : ¬ (chanRun ops).buf.length < channelCapacity := by
      unfold channelCapacity
      omega
    simp [RequestChannel.send_request, this]

/-- Witness for `send_request_single_slot` at the concrete trace
`[send a e, recv]`, after which the slot is free again. -/
theorem send_request_single_slot_witness :
    (chanRun [ChanOp.send ⟨"test_0"⟩ ⟨[]⟩, ChanOp.recv]).buf = [] ∧
    (chanRun [ChanOp.send ⟨"test_0"⟩ ⟨[]⟩, ChanOp.recv]).send_request ⟨"test_0"⟩ ⟨[]⟩
      = .ok ⟨[(⟨"test_0"⟩, ⟨[]⟩)]⟩ := by
  have h := (send_request_single_slot
      [ChanOp.send ⟨"test_0"⟩ ⟨[]⟩, ChanOp.recv]).2 ⟨"test_0"⟩ ⟨[]⟩
  exact ⟨by decide, h.1 (by decide)⟩

/-! ## Response registry (`ResponseMap`, src/src/lib.rs lines 204-253)

The Rust `ResponseMap` holds two `HashMap`s: `r_map` from request id to the
`oneshot::Receiver` half and `t_map` from request id to the `oneshot::Sender`
half.  We model the one-shot channels explicitly as a heap (`chans`, indexed
by creation order) so that dropping / replacing a half is observable, and we
split `get_response` into its two phases: removing the receiver half from
`r_map`, and the suspended `rx.await` later resolving.  Suspended awaits are
recorded in `tasks`. -/

/-- State of a `oneshot::Sender` half: still held (in `t_map`), consumed by a
successful `send`, or dropped without sending. -/
inductive SenderSt
  | held
  | sent
  | dropped
deriving DecidableEq, Repr

/-- State of a `oneshot::Receiver` half: sitting in `r_map`, taken out and
being awaited, resolved (the `rx.await` returned), or dropped. -/
inductive RecvSt
  | inMap
  | awaiting
  | resolved
  | dropped
deriving DecidableEq, Repr

/-- One `oneshot::channel()` pair created by `add_new_request`.  `owner` is
the request id it was created for; `value` is the deposited response, if any. -/
structure OneshotChan where
  owner : AWSRequestId
  sender : SenderSt
  recv : RecvSt
  value : Option EventResponse
deriving DecidableEq, Repr

/-- A `get_response` call that removed receiver `chan` from `r_map` and is
suspended on `rx.await`.  `done` marks that the await has resolved. -/
structure GetTask where
  reqId : AWSRequestId
  chan : Nat
  done : Bool
deriving DecidableEq, Repr

/-- The modelled `ResponseMap`: the heap of one-shot channels, the two
association maps (standing for the two `HashMap`s), and the suspended
`get_response` awaits. -/
structure ResponseMap where
  chans : List OneshotChan
  r_map : List (AWSRequestId × Nat)
  t_map : List (AWSRequestId × Nat)
  tasks : List GetTask
deriving DecidableEq, Repr

/-- `ResponseMap::new()`. -/
def ResponseMap.new : ResponseMap := ⟨[], [], [], []⟩

/-- `HashMap::get`-style lookup on an association list. -/
def lookupA (m : List (AWSRequestId × Nat)) (k : AWSRequestId) : Option Nat :=
  match m with
  | [] => none
  | (k', v) :: rest => if k' = k then some v else lookupA rest k

/-- `HashMap::insert`: replaces the binding for `k` if present. -/
def insertA (m : List (AWSRequestId × Nat)) (k : AWSRequestId) (v : Nat) :
    List (AWSRequestId × Nat) :=
  match m with
  | [] => [(k, v)]
  | (k', v') :: rest => if k' = k then (k, v) :: rest else (k', v') :: insertA rest k v

/-- `HashMap::remove`: deletes the binding for `k` if present. -/
def eraseA (m : List (AWSRequestId × Nat)) (k : AWSRequestId) :
    List (AWSRequestId × Nat) :=
  match m with
  | [] => []
  | (k', v') :: rest => if k' = k then rest else (k', v') :: eraseA rest k

/-- Point update of a list entry. -/
def modifyL {α : Type} (l : List α) (i : Nat) (f : α → α) : List α :=
  match l, i with
  | [], _ => []
  | a :: rest, 0 => f a :: rest
  | a :: rest, n + 1 => a :: modifyL rest n f

/-- `ResponseMap::add_new_request` (src lines 224-228): create a fresh
one-shot pair and `insert` both halves under `aws_request_id`.  A replaced
binding means the previous half is dropped (`HashMap::insert` drops the old
value). -/
def ResponseMap.add_new_request (st : ResponseMap) (id : AWSRequestId) :
    ResponseMap :=
  let n := st.chans.length
  let chans1 := st.chans ++ [⟨id, .held, .inMap, none⟩]
  let chans2 :=
    match lookupA st.r_map id with
    | some c => modifyL chans1 c (fun x => { x with recv := .dropped })
    | none => chans1
  let chans3 :=
    match lookupA st.t_map id with
    | some c => modifyL chans2 c (fun x => { x with sender := .dropped })
    | none => chans2
  { chans := chans3,
    r_map := insertA st.r_map id n,
    t_map := insertA st.t_map id n,
    tasks := st.tasks }

/-- `ResponseMap::send_response` (src lines 240-252): `remove` the sender half
from `t_map`; if absent, `Err("Sender already taken")`; otherwise `tx.send`,
which fails (`Err("Failed to send response")`) exactly when the receiver half
is already dropped. -/
def ResponseMap.send_response (st : ResponseMap) (id : AWSRequestId)
    (v : EventResponse) : ResponseMap × Except String Unit :=
  match lookupA st.t_map id with
  | none => (st, .error "Sender already taken")
  | some c =>
    let st1 := { st with t_map := eraseA st.t_map id }
    match st1.chans.get? c with
    | none => (st1, .error "Failed to send response")
    | some ch =>
      if ch.recv = .dropped then
        ({ st1 with chans := modifyL st1.chans c (fun x => { x with sender := .dropped }) },
         .error "Failed to send response")
      else
        ({ st1 with
            chans := modifyL st1.chans c
              (fun x => { x with sender := .sent, value := some v }) },
         .ok ())

/-- One atomic action on the registry.  `getStart`/`getResolve` are the two
phases of `ResponseMap::get_response` (src lines 229-239): the `remove` from
`r_map`, and the suspended `rx.await` resolving once the sender half is no
longer held. -/
inductive Op
  | register (id : AWSRequestId)
  | send (id : AWSRequestId) (v : EventResponse)
  | getStart (id : AWSRequestId)
  | getResolve (i : Nat)
deriving DecidableEq, Repr

/-- Observable outcomes: a registration, a deposit outcome, or a
`get_response` returning `r` (`none` is the `gone` case). -/
inductive Ev
  | registered (id : AWSRequestId)
  | sendOk (id : AWSRequestId) (v : EventResponse)
  | sendErr (id : AWSRequestId)
  | got (id : AWSRequestId) (r : Option EventResponse)
deriving DecidableEq, Repr

/-- Effect of one action on the registry state, together with the observable
event it emits (if any).  `getResolve` on a task whose sender half is still
held does nothing: the `rx.await` stays suspended. -/
def rmStep (st : ResponseMap) : Op → ResponseMap × Option Ev
  | .register id => (st.add_new_request id, some (.registered id))
  | .send id v =>
      let (st', r) := st.send_response id v
      match r with
      | .ok _ => (st', some (.sendOk id v))
      | .error _ => (st', some (.sendErr id))
  | .getStart id =>
      match lookupA st.r_map id with
      | none => (st, some (.got id none))
      | some c =>
        ({ st with r_map := eraseA st.r_map id,
                   chans := modifyL st.chans c (fun x => { x with recv := .awaiting }),
                   tasks := st.tasks ++ [⟨id, c, false⟩] }, none)
  | .getResolve i =>
      match st.tasks.get? i with
      | none => (st, none)
      | some t =>
        if t.done then (st, none)
        else
          match st.chans.get? t.chan with
          | none => (st, none)
          | some ch =>
            match ch.sender with
            | .held => (st, none)
            | .sent =>
              ({ st with tasks := modifyL st.tasks i (fun x => { x with done := true }),
                         chans := modifyL st.chans t.chan
                           (fun x => { x with recv := .resolved }) },
               some (.got t.reqId ch.value))
            | .dropped =>
              ({ st with tasks := modifyL st.tasks i (fun x => { x with done := true }),
                         chans := modifyL st.chans t.chan
                           (fun x => { x with recv := .resolved }) },
               some (.got t.reqId none))

/-- Run a trace of actions, accumulating the emitted events in order. -/
def rmRunFrom (st : ResponseMap) (evs : List Ev) : List Op → ResponseMap × List Ev
  | [] => (st, evs)
  | op :: ops =>
      let p := rmStep st op
      rmRunFrom p.1 (evs ++ p.2.toList) ops

/-- Run a trace from the fresh registry. -/
def rmRun (ops : List Op) : ResponseMap × List Ev :=
  rmRunFrom ResponseMap.new [] ops

/-- Number of `registered id` events. -/
def regCount (id : AWSRequestId) (evs : List Ev) : Nat :=
  (evs.filter fun e => match e with
    | .registered id' => decide (id' = id)
    | _ => false).length

/-- Number of successful deposits for `id`. -/
def sendOkCount (id : AWSRequestId) (evs : List Ev) : Nat :=
  (evs.filter fun e => match e with
    | .sendOk id' _ => decide (id' = id)
    | _ => false).length

/-- Number of awaits for `id` that returned an actual response. -/
def gotSomeCount (id : AWSRequestId) (evs : List Ev) : Nat :=
  (evs.filter fun e => match e with
    | .got id' (some _) => decide (id' = id)
    | _ => false).length

/-- 1 when `t_map` still holds a sender half for `id`. -/
def tLive (st : ResponseMap) (id : AWSRequestId) : Nat :=
  if (lookupA st.t_map id).isSome then 1 else 0

/-- 1 when `r_map` still holds a receiver half for `id`. -/
def rLive (st : ResponseMap) (id : AWSRequestId) : Nat :=
  if (lookupA st.r_map id).isSome then 1 else 0

/-- Number of suspended, unresolved `get_response` awaits for `id`. -/
def pendingGets (st : ResponseMap) (id : AWSRequestId) : Nat :=
  (st.tasks.filter fun t => decide (t.reqId = id) && !t.done).length

/-! ### Association-list and list-surgery lemmas -/

theorem lookupA_insertA_self (m : List (AWSRequestId × Nat)) (k : AWSRequestId)
    (v : Nat) : lookupA (insertA m k v) k = some v := by
  induction m with
  | nil => simp [insertA, lookupA]
  | cons p rest ih =>
      obtain ⟨pk, pv⟩ := p
      by_cases hp : pk = k
      · subst hp
        simp [insertA, lookupA]
      · simp [insertA, lookupA, hp, ih]

theorem lookupA_insertA_ne (m : List (AWSRequestId × Nat)) (k k' : AWSRequestId)
    (v : Nat) (h : k' ≠ k) : lookupA (insertA m k v) k' = lookupA m k' := by
  have hk : ¬ (k = k') := fun hk => h hk.symm
  induction m with
  | nil => simp [insertA, lookupA, hk]
  | cons p rest ih =>
      obtain ⟨pk, pv⟩ := p
      by_cases hp : pk = k
      · subst hp
        simp [insertA, lookupA, hk]
      · by_cases hq : pk = k'
        · subst hq
          simp [insertA, lookupA, hp]
        · simp [insertA, lookupA, hp, hq, ih]

theorem lookupA_eraseA_ne (m : List (AWSRequestId × Nat)) (k k' : AWSRequestId)
    (h : k' ≠ k) : lookupA (eraseA m k) k' = lookupA m k' := by
  induction m with
  | nil => simp [eraseA]
  | cons p rest ih =>
      obtain ⟨pk, pv⟩ := p
      by_cases hp : pk = k
      · subst hp
        have hk : ¬ (pk = k') := fun hk => h hk.symm
        simp [eraseA, lookupA, hk]
      · by_cases hq : pk = k'
        · subst hq
          simp [eraseA, lookupA, hp]
        · simp [eraseA, lookupA, hp, hq, ih]

theorem lookupA_eq_none_of_not_mem (m : List (AWSRequestId × Nat))
    (k : AWSRequestId) (h : k ∉ m.map Prod.fst) : lookupA m k = none := by
  induction m with
  | nil => simp [lookupA]
  | cons p rest ih =>
      obtain ⟨pk, pv⟩ := p
      simp only [List.map_cons, List.mem_cons] at h
      push_neg at h
      have hp : ¬ (pk = k) := fun hk => h.1 hk.symm
      simp [lookupA, hp, ih h.2]

theorem lookupA_eraseA_self (m : List (AWSRequestId × Nat)) (k : AWSRequestId)
    (h : (m.map Prod.fst).Nodup) : lookupA (eraseA m k) k = none := by
  induction m with
  | nil => simp [eraseA, lookupA]
  | cons p rest ih =>
      obtain ⟨pk, pv⟩ := p
      simp only [List.map_cons, List.nodup_cons] at h
      by_cases hp : pk = k
      · subst hp
        simp only [eraseA, if_pos rfl]
        exact lookupA_eq_none_of_not_mem rest pk h.1
      · simp [eraseA, lookupA, hp, ih h.2]

theorem mem_keys_insertA (m : List (AWSRequestId × Nat)) (k x : AWSRequestId)
    (v : Nat) :
    x ∈ (insertA m k v).map Prod.fst ↔ x ∈ m.map Prod.fst ∨ x = k := by
  induction m with
  | nil => simp [insertA]
  | cons p rest ih =>
      obtain ⟨pk, pv⟩ := p
      by_cases hp : pk = k
      · subst hp
        simp [insertA]
        tauto
      · simp [insertA, hp, ih]
        tauto

theorem nodupKeys_insertA (m : List (AWSRequestId × Nat)) (k : AWSRequestId)
    (v : Nat) (h : (m.map Prod.fst).Nodup) :
    ((insertA m k v).map Prod.fst).Nodup := by
  induction m with
  | nil => simp [insertA]
  | cons p rest ih =>
      obtain ⟨pk, pv⟩ := p
      simp only [List.map_cons, List.nodup_cons] at h
      by_cases hp : pk = k
      · subst hp
        have hins : insertA ((pk, pv) :: rest) pk v = (pk, v) :: rest := by
          simp [insertA]
        rw [hins]
        simp only [List.map_cons, List.nodup_cons]
        exact ⟨h.1, h.2⟩
      · simp only [insertA, if_neg hp, List.map_cons, List.nodup_cons]
        refine ⟨?_, ih h.2⟩
        rw [mem_keys_insertA]
        push_neg
        exact ⟨h.1, hp⟩

theorem keys_eraseA_sublist (m : List (AWSRequestId × Nat)) (k : AWSRequestId) :
    ((eraseA m k).map Prod.fst).Sublist (m.map Prod.fst) := by
  induction m with
  | nil => simp [eraseA]
  | cons p rest ih =>
      obtain ⟨pk, pv⟩ := p
      by_cases hp : pk = k
      · subst hp
        simp only [eraseA, if_pos rfl, List.map_cons]
        exact (List.Sublist.refl _).cons _
      · simp only [eraseA, if_neg hp, List.map_cons]
        exact ih.cons₂ pk

theorem nodupKeys_eraseA (m : List (AWSRequestId × Nat)) (k : AWSRequestId)
    (h : (m.map Prod.fst).Nodup) : ((eraseA m k).map Prod.fst).Nodup :=
  (keys_eraseA_sublist m k).nodup h

theorem modifyL_length {α : Type} (l : List α) (i : Nat) (f : α → α) :
    (modifyL l i f).length = l.length := by
  induction l generalizing i with
  | nil => simp [modifyL]
  | cons a rest ih =>
      cases i with
      | zero => simp [modifyL]
      | succ n => simp [modifyL, ih]

theorem get?_modifyL_self {α : Type} (l : List α) (i : Nat) (f : α → α) :
    (modifyL l i f).get? i = (l.get? i).map f := by
  induction l generalizing i with
  | nil => simp [modifyL]
  | cons a rest ih =>
      cases i with
      | zero => simp [modifyL]
      | succ n => simpa [modifyL] using ih n

theorem get?_modifyL_ne {α : Type} (l : List α) (i j : Nat) (f : α → α)
    (h : i ≠ j) : (modifyL l i f).get? j = l.get? j := by
  induction l generalizing i j with
  | nil => simp [modifyL]
  | cons a rest ih =>
      cases i with
      | zero =>
          cases j with
          | zero => exact absurd rfl h
          | succ m => simp [modifyL]
      | succ n =>
          cases j with
          | zero => simp [modifyL]
          | succ m =>
              simp only [modifyL, List.get?_cons_succ]
              exact ih n m (fun hnm => h (by rw [hnm]))

theorem mem_modifyL {α : Type} (l : List α) (i : Nat) (f : α → α) (x : α)
    (h : x ∈ modifyL l i f) :
    x ∈ l ∨ ∃ a, l.get? i = some a ∧ x = f a := by
  induction l generalizing i with
  | nil => simp [modifyL] at h
  | cons a rest ih =>
      cases i with
      | zero =>
          simp only [modifyL, List.mem_cons] at h
          rcases h with h | h
          · exact Or.inr ⟨a, by simp, h⟩
          · exact Or.inl (List.mem_cons_of_mem a h)
      | succ n =>
          simp only [modifyL, List.mem_cons] at h
          rcases h with h | h
          · exact Or.inl (h ▸ List.mem_cons_self a rest)
          · rcases ih n h with h' | ⟨b, hb, hx⟩
            · exact Or.inl (List.mem_cons_of_mem a h')
            · exact Or.inr ⟨b, by simpa using hb, hx⟩

theorem filter_length_modifyL {α : Type} (l : List α) (i : Nat) (f : α → α)
    (p : α → Bool) (a : α) (h : l.get? i = some a) (hpa : p a = true)
    (hpf : p (f a) = false) :
    ((modifyL l i f).filter p).length + 1 = (l.filter p).length := by
  induction l generalizing i with
  | nil => simp at h
  | cons b rest ih =>
      cases i with
      | zero =>
          simp only [List.get?_cons_zero, Option.some.injEq] at h
          subst h
          simp [modifyL, List.filter_cons, hpa, hpf]
      | succ n =>
          simp only [List.get?_cons_succ] at h
          simp only [modifyL, List.filter_cons]
          cases hpb : p b with
          | true => simpa using ih n h
          | false => simpa using ih n h

theorem filter_length_modifyL_inv {α : Type} (l : List α) (i : Nat) (f : α → α)
    (p : α → Bool) (h : ∀ x, p (f x) = p x) :
    ((modifyL l i f).filter p).length = (l.filter p).length := by
  induction l generalizing i with
  | nil => simp [modifyL]
  | cons b rest ih =>
      cases i with
      | zero => simp [modifyL, List.filter_cons, h b]; split <;> simp [ih 0]
      | succ n =>
          simp only [modifyL, List.filter_cons]
          split <;> simp [ih n]

/-! ### Indexing helpers -/

theorem get?_some_lt_length {α : Type} (l : List α) (j : Nat) (x : α)
    (h : l.get? j = some x) : j < l.length := by
  induction l generalizing j with
  | nil => simp at h
  | cons a rest ih =>
      cases j with
      | zero => simp
      | succ n =>
          simp only [List.get?_cons_succ] at h
          simpa using ih n h

theorem mem_of_get? {α : Type} (l : List α) (j : Nat) (x : α)
    (h : l.get? j = some x) : x ∈ l := by
  induction l generalizing j with
  | nil => simp at h
  | cons a rest ih =>
      cases j with
      | zero =>
          simp only [List.get?_cons_zero, Option.some.injEq] at h
          exact h ▸ List.mem_cons_self a rest
      | succ n =>
          simp only [List.get?_cons_succ] at h
          exact List.mem_cons_of_mem a (ih n h)

theorem exists_get?_of_mem {α : Type} (l : List α) (x : α) (h : x ∈ l) :
    ∃ j, j < l.length ∧ l.get? j = some x := by
  induction l with
  | nil => simp at h
  | cons a rest ih =>
      rcases List.mem_cons.mp h with h' | h'
      · exact ⟨0, by simp, by simp [h']⟩
      · rcases ih h' with ⟨j, hj, hx⟩
        exact ⟨j + 1, by simpa using hj, by simpa using hx⟩

theorem get?_append_lt {α : Type} (l l' : List α) (j : Nat) (h : j < l.length) :
    (l ++ l').get? j = l.get? j := by
  induction l generalizing j with
  | nil => simp at h
  | cons a rest ih =>
      cases j with
      | zero => simp
      | succ n =>
          simp only [List.length_cons] at h
          simpa using ih n (by omega)

theorem get?_append_self {α : Type} (l : List α) (x : α) :
    (l ++ [x]).get? l.length = some x := by
  induction l with
  | nil => simp
  | cons a rest ih => simpa using ih

theorem get?_append_single_cases {α : Type} (l : List α) (e x : α) (k : Nat)
    (h : (l ++ [e]).get? k = some x) :
    (k < l.length ∧ l.get? k = some x) ∨ (k = l.length ∧ x = e) := by
  have hk := get?_some_lt_length _ _ _ h
  simp only [List.length_append, List.length_singleton] at hk
  by_cases hlt : k < l.length
  · exact Or.inl ⟨hlt, by rwa [get?_append_lt l [e] k hlt] at h⟩
  · have hke : k = l.length := by omega
    subst hke
    rw [get?_append_self] at h
    exact Or.inr ⟨rfl, by injection h with h'; exact h'.symm⟩

theorem filter_length_append_single {α : Type} (p : α → Bool) (l : List α)
    (e : α) :
    ((l ++ [e]).filter p).length
      = (l.filter p).length + (if p e then 1 else 0) := by
  rw [List.filter_append]
  simp only [List.filter_cons, List.filter_nil, List.length_append]
  split <;> simp

theorem filter_length_modifyL_skip {α : Type} (l : List α) (i : Nat)
    (f : α → α) (p : α → Bool) (a : α) (h : l.get? i = some a)
    (hpa : p a = false) (hpf : p (f a) = false) :
    ((modifyL l i f).filter p).length = (l.filter p).length := by
  induction l generalizing i with
  | nil => simp at h
  | cons b rest ih =>
      cases i with
      | zero =>
          simp only [List.get?_cons_zero, Option.some.injEq] at h
          subst h
          simp [modifyL, List.filter_cons, hpa, hpf]
      | succ n =>
          simp only [List.get?_cons_succ] at h
          simp only [modifyL, List.filter_cons]
          split <;> simp [ih n h]

/-! ### The registry invariant -/

/-- Owner and deposited value of the channel at each heap position. -/
def ov (ch : OneshotChan) : AWSRequestId × Option EventResponse :=
  (ch.owner, ch.value)

/-- Invariant tying a reachable registry state to the event trace that
produced it.  The last two components are the temporal properties themselves,
carried through the induction. -/
structure RMInv (st : ResponseMap) (evs : List Ev) : Prop where
  rkeys : (st.r_map.map Prod.fst).Nodup
  tkeys : (st.t_map.map Prod.fst).Nodup
  rref : ∀ id c, lookupA st.r_map id = some c →
    ∃ ch, st.chans.get? c = some ch ∧ ch.owner = id
  tref : ∀ id c, lookupA st.t_map id = some c →
    ∃ ch, st.chans.get? c = some ch ∧ ch.owner = id
  taskref : ∀ t ∈ st.tasks,
    ∃ ch, st.chans.get? t.chan = some ch ∧ ch.owner = t.reqId
  sentEv : ∀ c ch, st.chans.get? c = some ch →
    ∀ v, ch.value = some v → Ev.sendOk ch.owner v ∈ evs
  tReg : ∀ id, (lookupA st.t_map id).isSome → Ev.registered id ∈ evs
  sendCount : ∀ id, sendOkCount id evs + tLive st id ≤ regCount id evs
  gotCount : ∀ id,
    gotSomeCount id evs + rLive st id + pendingGets st id ≤ regCount id evs
  p1 : ∀ k id R, evs.get? k = some (.got id (some R)) →
    ∃ j, j < k ∧ evs.get? j = some (.sendOk id R)
  p8 : ∀ k id v, evs.get? k = some (.sendOk id v) →
    ∃ j, j < k ∧ evs.get? j = some (.registered id)

theorem rmInv_init : RMInv ResponseMap.new [] := by
  constructor <;>
    simp [ResponseMap.new, lookupA, tLive, rLive, pendingGets,
      sendOkCount, gotSomeCount, regCount]

/-! ### Event-count bookkeeping -/

theorem regCount_append_registered (id id' : AWSRequestId) (evs : List Ev) :
    regCount id (evs ++ [.registered id'])
      = regCount id evs + (if id' = id then 1 else 0) := by
  unfold regCount
  rw [filter_length_append_single]
  by_cases hid : id' = id <;> simp [hid]

theorem regCount_append_other (id : AWSRequestId) (evs : List Ev) (e : Ev)
    (h : ∀ id', e ≠ .registered id') :
    regCount id (evs ++ [e]) = regCount id evs := by
  unfold regCount
  rw [filter_length_append_single]
  cases e with
  | registered id' => exact absurd rfl (h id')
  | sendOk id' v => simp
  | sendErr id' => simp
  | got id' r => simp

theorem sendOkCount_append_sendOk (id id' : AWSRequestId) (v : EventResponse)
    (evs : List Ev) :
    sendOkCount id (evs ++ [.sendOk id' v])
      = sendOkCount id evs + (if id' = id then 1 else 0) := by
  unfold sendOkCount
  rw [filter_length_append_single]
  by_cases hid : id' = id <;> simp [hid]

theorem sendOkCount_append_other (id : AWSRequestId) (evs : List Ev) (e : Ev)
    (h : ∀ id' v, e ≠ .sendOk id' v) :
    sendOkCount id (evs ++ [e]) = sendOkCount id evs := by
  unfold sendOkCount
  rw [filter_length_append_single]
  cases e with
  | registered id' => simp
  | sendOk id' v => exact absurd rfl (h id' v)
  | sendErr id' => simp
  | got id' r => simp

theorem gotSomeCount_append_gotSome (id id' : AWSRequestId) (v : EventResponse)
    (evs : List Ev) :
    gotSomeCount id (evs ++ [.got id' (some v)])
      = gotSomeCount id evs + (if id' = id then 1 else 0) := by
  unfold gotSomeCount
  rw [filter_length_append_single]
  by_cases hid : id' = id <;> simp [hid]

theorem gotSomeCount_append_other (id : AWSRequestId) (evs : List Ev) (e : Ev)
    (h : ∀ id' v, e ≠ .got id' (some v)) :
    gotSomeCount id (evs ++ [e]) = gotSomeCount id evs := by
  unfold gotSomeCount
  rw [filter_length_append_single]
  cases e with
  | registered id' => simp
  | sendOk id' v => simp
  | sendErr id' => simp
  | got id' r =>
      cases r with
      | none => simp
      | some v => exact absurd rfl (h id' v)

/-! ### Owner/value tracking across heap surgery -/

theorem ov_modifyL (chans : List OneshotChan) (i : Nat)
    (f : OneshotChan → OneshotChan) (hf : ∀ x, ov (f x) = ov x) :
    ∀ c, ((modifyL chans i f).get? c).map ov = (chans.get? c).map ov := by
  intro c
  by_cases hc : i = c
  · subst hc
    rw [get?_modifyL_self]
    cases chans.get? i <;> simp [hf]
  · rw [get?_modifyL_ne _ _ _ _ hc]

theorem ov_some_transfer (l l' : List OneshotChan) (c : Nat)
    (hov : (l'.get? c).map ov = (l.get? c).map ov)
    (ch : OneshotChan) (h : l.get? c = some ch) :
    ∃ ch', l'.get? c = some ch' ∧ ch'.owner = ch.owner ∧ ch'.value = ch.value := by
  rw [h] at hov
  cases hc' : l'.get? c with
  | none => rw [hc'] at hov; simp at hov
  | some ch' =>
      rw [hc'] at hov
      simp only [Option.map_some'] at hov
      have h2 : ov ch' = ov ch := by injection hov
      exact ⟨ch', rfl, congrArg Prod.fst h2, congrArg Prod.snd h2⟩

theorem add_new_request_chans_ov (st : ResponseMap) (id : AWSRequestId)
    (hr : ∀ c, lookupA st.r_map id = some c → c < st.chans.length)
    (ht : ∀ c, lookupA st.t_map id = some c → c < st.chans.length) :
    (∀ c, c < st.chans.length →
      ((st.add_new_request id).chans.get? c).map ov = (st.chans.get? c).map ov) ∧
    (st.add_new_request id).chans.get? st.chans.length
      = some ⟨id, .held, .inMap, none⟩ ∧
    (st.add_new_request id).chans.length = st.chans.length + 1 := by
  have hbase : ∀ c, c < st.chans.length →
      (st.chans ++ [(⟨id, .held, .inMap, none⟩ : OneshotChan)]).get? c
        = st.chans.get? c :=
    fun c hc => get?_append_lt _ _ c hc
  cases hR : lookupA st.r_map id with
  | none =>
      cases hT : lookupA st.t_map id with
      | none =>
          refine ⟨?_, ?_, ?_⟩
          · intro c hc
            simp only [ResponseMap.add_new_request, hR, hT]
            rw [hbase c hc]
          · simp only [ResponseMap.add_new_request, hR, hT]
            exact get?_append_self _ _
          · simp [ResponseMap.add_new_request, hR, hT]
      | some cT =>
          have hcT := ht cT hT
          refine ⟨?_, ?_, ?_⟩
          · intro c hc
            simp only [ResponseMap.add_new_request, hR, hT]
            have h1 := ov_modifyL
              (st.chans ++ [(⟨id, .held, .inMap, none⟩ : OneshotChan)]) cT
              (fun x => { x with sender := SenderSt.dropped }) (fun x => rfl)
            rw [h1 c, hbase c hc]
          · simp only [ResponseMap.add_new_request, hR, hT]
            rw [get?_modifyL_ne _ _ _ _ (by omega)]
            exact get?_append_self _ _
          · simp [ResponseMap.add_new_request, hR, hT, modifyL_length]
  | some cR =>
      have hcR := hr cR hR
      cases hT : lookupA st.t_map id with
      | none =>
          refine ⟨?_, ?_, ?_⟩
          · intro c hc
            simp only [ResponseMap.add_new_request, hR, hT]
            have h1 := ov_modifyL
              (st.chans ++ [(⟨id, .held, .inMap, none⟩ : OneshotChan)]) cR
              (fun x => { x with recv := RecvSt.dropped }) (fun x => rfl)
            rw [h1 c, hbase c hc]
          · simp only [ResponseMap.add_new_request, hR, hT]
            rw [get?_modifyL_ne _ _ _ _ (by omega)]
            exact get?_append_self _ _
          · simp [ResponseMap.add_new_request, hR, hT, modifyL_length]
      | some cT =>
          have hcT := ht cT hT
          refine ⟨?_, ?_, ?_⟩
          · intro c hc
            simp only [ResponseMap.add_new_request, hR, hT]
            have h1 := ov_modifyL
              (st.chans ++ [(⟨id, .held, .inMap, none⟩ : OneshotChan)]) cR
              (fun x => { x with recv := RecvSt.dropped }) (fun x => rfl)
            have h2 := ov_modifyL
              (modifyL (st.chans ++ [(⟨id, .held, .inMap, none⟩ : OneshotChan)])
                cR (fun x => { x with recv := RecvSt.dropped })) cT
              (fun x => { x with sender := SenderSt.dropped }) (fun x => rfl)
            rw [h2 c, h1 c, hbase c hc]
          · simp only [ResponseMap.add_new_request, hR, hT]
            rw [get?_modifyL_ne _ _ _ _ (by omega),
                get?_modifyL_ne _ _ _ _ (by omega)]
            exact get?_append_self _ _
          · simp [ResponseMap.add_new_request, hR, hT, modifyL_length]

/-! ### Invariant preservation, per operation -/

theorem rmInv_register (st : ResponseMap) (evs : List Ev) (id : AWSRequestId)
    (h : RMInv st evs) :
    RMInv (st.add_new_request id) (evs ++ [Ev.registered id]) := by
  have hrlt : ∀ c, lookupA st.r_map id = some c → c < st.chans.length := by
    intro c hc
    obtain ⟨ch, hch, -⟩ := h.rref id c hc
    exact get?_some_lt_length _ _ _ hch
  have htlt : ∀ c, lookupA st.t_map id = some c → c < st.chans.length := by
    intro c hc
    obtain ⟨ch, hch, -⟩ := h.tref id c hc
    exact get?_some_lt_length _ _ _ hch
  obtain ⟨hov, hfresh, hlen⟩ := add_new_request_chans_ov st id hrlt htlt
  have hrm : (st.add_new_request id).r_map
      = insertA st.r_map id st.chans.length := rfl
  have htm : (st.add_new_request id).t_map
      = insertA st.t_map id st.chans.length := rfl
  have htk : (st.add_new_request id).tasks = st.tasks := rfl
  have hovAll : ∀ c ch, st.chans.get? c = some ch →
      ∃ ch', (st.add_new_request id).chans.get? c = some ch' ∧
        ch'.owner = ch.owner ∧ ch'.value = ch.value := by
    intro c ch hch
    exact ov_some_transfer _ _ c
      (hov c (get?_some_lt_length _ _ _ hch)) ch hch
  have hovBack : ∀ c ch', (st.add_new_request id).chans.get? c = some ch' →
      c < st.chans.length →
      ∃ ch, st.chans.get? c = some ch ∧ ch'.owner = ch.owner ∧
        ch'.value = ch.value := by
    intro c ch' hch' hc
    obtain ⟨ch, hch, how, hval⟩ := ov_some_transfer _ _ c (hov c hc).symm ch' hch'
    exact ⟨ch, hch, how.symm, hval.symm⟩
  refine ⟨?_, ?_, ?_, ?_, ?_, ?_, ?_, ?_, ?_, ?_, ?_⟩
  · rw [hrm]; exact nodupKeys_insertA _ _ _ h.rkeys
  · rw [htm]; exact nodupKeys_insertA _ _ _ h.tkeys
  · intro id' c hc
    rw [hrm] at hc
    by_cases hid : id' = id
    · subst hid
      rw [lookupA_insertA_self] at hc
      injection hc with hc
      subst hc
      exact ⟨_, hfresh, rfl⟩
    · rw [lookupA_insertA_ne _ _ _ _ hid] at hc
      obtain ⟨ch, hch, how⟩ := h.rref id' c hc
      obtain ⟨ch', hch', how', -⟩ := hovAll c ch hch
      exact ⟨ch', hch', how'.trans how⟩
  · intro id' c hc
    rw [htm] at hc
    by_cases hid : id' = id
    · subst hid
      rw [lookupA_insertA_self] at hc
      injection hc with hc
      subst hc
      exact ⟨_, hfresh, rfl⟩
    · rw [lookupA_insertA_ne _ _ _ _ hid] at hc
      obtain ⟨ch, hch, how⟩ := h.tref id' c hc
      obtain ⟨ch', hch', how', -⟩ := hovAll c ch hch
      exact ⟨ch', hch', how'.trans how⟩
  · intro t ht
    rw [htk] at ht
    obtain ⟨ch, hch, how⟩ := h.taskref t ht
    obtain ⟨ch', hch', how', -⟩ := hovAll _ ch hch
    exact ⟨ch', hch', how'.trans how⟩
  · intro c ch' hch' v hv
    have hclen : c < st.chans.length + 1 := by
      have := get?_some_lt_length _ _ _ hch'
      rwa [hlen] at this
    by_cases hcn : c = st.chans.length
    · subst hcn
      rw [hfresh] at hch'
      injection hch' with he
      subst he
      simp at hv
    · have hc : c < st.chans.length := by omega
      obtain ⟨ch, hch, how, hval⟩ := hovBack c ch' hch' hc
      have hmem := h.sentEv c ch hch v (by rw [← hval]; exact hv)
      rw [how]
      exact List.mem_append_left _ hmem
  · intro id' hsome
    rw [htm] at hsome
    by_cases hid : id' = id
    · subst hid
      exact List.mem_append_right _ (by simp)
    · rw [lookupA_insertA_ne _ _ _ _ hid] at hsome
      exact List.mem_append_left _ (h.tReg id' hsome)
  · intro id'
    rw [regCount_append_registered,
        sendOkCount_append_other id' evs _ (fun i => by simp)]
    have hc := h.sendCount id'
    unfold tLive at hc ⊢
    rw [htm]
    by_cases hid : id = id'
    · subst hid
      rw [lookupA_insertA_self]
      simp only [Option.isSome_some, if_pos rfl, if_true]
      split at hc <;> omega
    · have hid' : id' ≠ id := fun he => hid he.symm
      rw [lookupA_insertA_ne _ _ _ _ hid']
      simp only [if_neg hid]
      omega
  · intro id'
    rw [regCount_append_registered,
        gotSomeCount_append_other id' evs _ (fun i v => by simp)]
    have hc := h.gotCount id'
    have hpend : pendingGets (st.add_new_request id) id' = pendingGets st id' := by
      unfold pendingGets
      rw [htk]
    rw [hpend]
    unfold rLive at hc ⊢
    rw [hrm]
    by_cases hid : id = id'
    · subst hid
      rw [lookupA_insertA_self]
      simp only [Option.isSome_some, if_pos rfl, if_true]
      split at hc <;> omega
    · have hid' : id' ≠ id := fun he => hid he.symm
      rw [lookupA_insertA_ne _ _ _ _ hid']
      simp only [if_neg hid]
      omega
  · intro k id' R hk
    rcases get?_append_single_cases evs _ _ k hk with ⟨hlt, hold⟩ | ⟨-, he⟩
    · obtain ⟨j, hj, hje⟩ := h.p1 k id' R hold
      have hjlen : j < evs.length := hj.trans hlt
      exact ⟨j, hj, by rw [get?_append_lt evs _ j hjlen]; exact hje⟩
    · simp at he
  · intro k id' v hk
    rcases get?_append_single_cases evs _ _ k hk with ⟨hlt, hold⟩ | ⟨-, he⟩
    · obtain ⟨j, hj, hje⟩ := h.p8 k id' v hold
      have hjlen : j < evs.length := hj.trans hlt
      exact ⟨j, hj, by rw [get?_append_lt evs _ j hjlen]; exact hje⟩
    · simp at he

theorem rmStep_send_none (st : ResponseMap) (id : AWSRequestId)
    (v : EventResponse) (hc : lookupA st.t_map id = none) :
    rmStep st (.send id v) = (st, some (.sendErr id)) := by
  simp [rmStep, ResponseMap.send_response, hc]

theorem rmStep_send_dropped (st : ResponseMap) (id : AWSRequestId)
    (v : EventResponse) (c : Nat) (ch : OneshotChan)
    (hc : lookupA st.t_map id = some c) (hch : st.chans.get? c = some ch)
    (hr : ch.recv = RecvSt.dropped) :
    rmStep st (.send id v) =
      ({ st with t_map := eraseA st.t_map id,
                 chans := modifyL st.chans c
                   (fun x => { x with sender := SenderSt.dropped }) },
       some (.sendErr id)) := by
  have hch' : st.chans[c]? = some ch := by
    rw [List.get?_eq_getElem?] at hch
    exact hch
  simp [rmStep, ResponseMap.send_response, hc, hch', hr]

theorem rmStep_send_ok (st : ResponseMap) (id : AWSRequestId)
    (v : EventResponse) (c : Nat) (ch : OneshotChan)
    (hc : lookupA st.t_map id = some c) (hch : st.chans.get? c = some ch)
    (hr : ¬ ch.recv = RecvSt.dropped) :
    rmStep st (.send id v) =
      ({ st with t_map := eraseA st.t_map id,
                 chans := modifyL st.chans c
                   (fun x => { x with sender := SenderSt.sent, value := some v }) },
       some (.sendOk id v)) := by
  have hch' : st.chans[c]? = some ch := by
    rw [List.get?_eq_getElem?] at hch
    exact hch
  simp [rmStep, ResponseMap.send_response, hc, hch', hr]

theorem rmStep_getStart_none (st : ResponseMap) (id : AWSRequestId)
    (hc : lookupA st.r_map id = none) :
    rmStep st (.getStart id) = (st, some (.got id none)) := by
  simp [rmStep, hc]

theorem rmStep_getStart_some (st : ResponseMap) (id : AWSRequestId) (c : Nat)
    (hc : lookupA st.r_map id = some c) :
    rmStep st (.getStart id) =
      ({ st with r_map := eraseA st.r_map id,
                 chans := modifyL st.chans c
                   (fun x => { x with recv := RecvSt.awaiting }),
                 tasks := st.tasks ++ [⟨id, c, false⟩] }, none) := by
  simp [rmStep, hc]

theorem p1_lift (evs : List Ev) (e : Ev)
    (hp : ∀ k id R, evs.get? k = some (.got id (some R)) →
      ∃ j, j < k ∧ evs.get? j = some (.sendOk id R))
    (he : ∀ id R, e = .got id (some R) → Ev.sendOk id R ∈ evs) :
    ∀ k id R, (evs ++ [e]).get? k = some (.got id (some R)) →
      ∃ j, j < k ∧ (evs ++ [e]).get? j = some (.sendOk id R) := by
  intro k id R hk
  rcases get?_append_single_cases evs e _ k hk with ⟨hlt, hold⟩ | ⟨hke, hee⟩
  · obtain ⟨j, hj, hje⟩ := hp k id R hold
    exact ⟨j, hj, by rw [get?_append_lt evs _ j (hj.trans hlt)]; exact hje⟩
  · subst hke
    obtain ⟨j, hjl, hje⟩ := exists_get?_of_mem _ _ (he id R hee.symm)
    exact ⟨j, hjl, by rw [get?_append_lt evs _ j hjl]; exact hje⟩

theorem p8_lift (evs : List Ev) (e : Ev)
    (hp : ∀ k id v, evs.get? k = some (.sendOk id v) →
      ∃ j, j < k ∧ evs.get? j = some (.registered id))
    (he : ∀ id v, e = .sendOk id v → Ev.registered id ∈ evs) :
    ∀ k id v, (evs ++ [e]).get? k = some (.sendOk id v) →
      ∃ j, j < k ∧ (evs ++ [e]).get? j = some (.registered id) := by
  intro k id v hk
  rcases get?_append_single_cases evs e _ k hk with ⟨hlt, hold⟩ | ⟨hke, hee⟩
  · obtain ⟨j, hj, hje⟩ := hp k id v hold
    exact ⟨j, hj, by rw [get?_append_lt evs _ j (hj.trans hlt)]; exact hje⟩
  · subst hke
    obtain ⟨j, hjl, hje⟩ := exists_get?_of_mem _ _ (he id v hee.symm)
    exact ⟨j, hjl, by rw [get?_append_lt evs _ j hjl]; exact hje⟩

/-- Appending an event that is neither a registration, a successful deposit,
nor a successful await preserves the invariant with the state unchanged. -/
theorem rmInv_neutral_ev (st : ResponseMap) (evs : List Ev) (e : Ev)
    (h : RMInv st evs)
    (hreg : ∀ id', e ≠ .registered id')
    (hok : ∀ id' v', e ≠ .sendOk id' v')
    (hgot : ∀ id' v', e ≠ .got id' (some v')) :
    RMInv st (evs ++ [e]) := by
  refine ⟨h.rkeys, h.tkeys, h.rref, h.tref, h.taskref, ?_, ?_, ?_, ?_, ?_, ?_⟩
  · intro c ch hch v hv
    exact List.mem_append_left _ (h.sentEv c ch hch v hv)
  · intro id' hsome
    exact List.mem_append_left _ (h.tReg id' hsome)
  · intro id'
    rw [regCount_append_other id' evs e hreg,
        sendOkCount_append_other id' evs e hok]
    exact h.sendCount id'
  · intro id'
    rw [regCount_append_other id' evs e hreg,
        gotSomeCount_append_other id' evs e hgot]
    exact h.gotCount id'
  · exact p1_lift evs e h.p1 (fun id R hee => absurd hee (hgot id R))
  · exact p8_lift evs e h.p8 (fun id v hee => absurd hee (hok id v))

theorem rmInv_send (st : ResponseMap) (evs : List Ev) (id : AWSRequestId)
    (v : EventResponse) (h : RMInv st evs) :
    RMInv (rmStep st (.send id v)).1
      (evs ++ ((rmStep st (.send id v)).2).toList) := by
  cases hc : lookupA st.t_map id with
  | none =>
      rw [rmStep_send_none st id v hc]
      exact rmInv_neutral_ev st evs _ h
        (fun id' hh => Ev.noConfusion hh)
        (fun id' v' hh => Ev.noConfusion hh)
        (fun id' v' hh => Ev.noConfusion hh)
  | some c =>
      obtain ⟨ch, hch, how⟩ := h.tref id c hc
      have htl : (lookupA st.t_map id).isSome := by rw [hc]; rfl
      by_cases hr : ch.recv = RecvSt.dropped
      · rw [rmStep_send_dropped st id v c ch hc hch hr]
        show RMInv
          { st with t_map := eraseA st.t_map id,
                    chans := modifyL st.chans c
                      (fun x => { x with sender := SenderSt.dropped }) }
          (evs ++ [Ev.sendErr id])
        have hov := ov_modifyL st.chans c
          (fun x => { x with sender := SenderSt.dropped }) (fun x => rfl)
        refine ⟨h.rkeys, nodupKeys_eraseA _ _ h.tkeys, ?_, ?_, ?_, ?_, ?_,
          ?_, ?_, ?_, ?_⟩
        · intro id' c' hc'
          obtain ⟨ch2, hch2, how2⟩ := h.rref id' c' hc'
          obtain ⟨ch2', hch2', how2', -⟩ := ov_some_transfer _ _ c' (hov c') ch2 hch2
          exact ⟨ch2', hch2', how2'.trans how2⟩
        · intro id' c' hc'
          by_cases hid : id' = id
          · subst hid
            rw [lookupA_eraseA_self _ _ h.tkeys] at hc'
            exact absurd hc' (by simp)
          · rw [lookupA_eraseA_ne _ _ _ hid] at hc'
            obtain ⟨ch2, hch2, how2⟩ := h.tref id' c' hc'
            obtain ⟨ch2', hch2', how2', -⟩ := ov_some_transfer _ _ c' (hov c') ch2 hch2
            exact ⟨ch2', hch2', how2'.trans how2⟩
        · intro t ht
          obtain ⟨ch2, hch2, how2⟩ := h.taskref t ht
          obtain ⟨ch2', hch2', how2', -⟩ := ov_some_transfer _ _ _ (hov t.chan) ch2 hch2
          exact ⟨ch2', hch2', how2'.trans how2⟩
        · intro c' ch2' hch2' v' hv'
          obtain ⟨ch2, hch2, how2, hval2⟩ := ov_some_transfer _ _ c' (hov c').symm ch2' hch2'
          rw [← how2]
          exact List.mem_append_left _
            (h.sentEv c' ch2 hch2 v' (hval2.trans hv'))
        · intro id' hsome
          by_cases hid : id' = id
          · subst hid
            rw [lookupA_eraseA_self _ _ h.tkeys] at hsome
            exact absurd hsome (by simp)
          · rw [lookupA_eraseA_ne _ _ _ hid] at hsome
            exact List.mem_append_left _ (h.tReg id' hsome)
        · intro id'
          rw [regCount_append_other id' evs _ (fun i hh => Ev.noConfusion hh),
              sendOkCount_append_other id' evs _ (fun i w hh => Ev.noConfusion hh)]
          have hcnt := h.sendCount id'
          unfold tLive at hcnt ⊢
          by_cases hid : id' = id
          · rw [hid] at hcnt ⊢
            rw [lookupA_eraseA_self _ _ h.tkeys]
            show sendOkCount id evs + 0 ≤ regCount id evs
            split at hcnt <;> omega
          · rw [lookupA_eraseA_ne _ _ _ hid]
            exact hcnt
        · intro id'
          rw [regCount_append_other id' evs _ (fun i hh => Ev.noConfusion hh),
              gotSomeCount_append_other id' evs _ (fun i w hh => Ev.noConfusion hh)]
          exact h.gotCount id'
        · exact p1_lift evs _ h.p1 (fun i R hee => Ev.noConfusion hee)
        · exact p8_lift evs _ h.p8 (fun i w hee => Ev.noConfusion hee)
      · rw [rmStep_send_ok st id v c ch hc hch hr]
        show RMInv
          { st with t_map := eraseA st.t_map id,
                    chans := modifyL st.chans c
                      (fun x => { x with sender := SenderSt.sent, value := some v }) }
          (evs ++ [Ev.sendOk id v])
        have hovne : ∀ c', c ≠ c' →
            (modifyL st.chans c
              (fun x => { x with sender := SenderSt.sent, value := some v })).get? c'
              = st.chans.get? c' :=
          fun c' hne => get?_modifyL_ne _ _ _ _ hne
        have hatc : (modifyL st.chans c
            (fun x => { x with sender := SenderSt.sent, value := some v })).get? c
            = some { ch with sender := SenderSt.sent, value := some v } := by
          rw [get?_modifyL_self, hch]
          rfl
        refine ⟨h.rkeys, nodupKeys_eraseA _ _ h.tkeys, ?_, ?_, ?_, ?_, ?_,
          ?_, ?_, ?_, ?_⟩
        · intro id' c' hc'
          obtain ⟨ch2, hch2, how2⟩ := h.rref id' c' hc'
          by_cases hcc : c = c'
          · subst hcc
            rw [hch2] at hch
            injection hch with hch
            subst hch
            exact ⟨_, hatc, how2⟩
          · exact ⟨ch2, by rw [hovne c' hcc]; exact hch2, how2⟩
        · intro id' c' hc'
          by_cases hid : id' = id
          · subst hid
            rw [lookupA_eraseA_self _ _ h.tkeys] at hc'
            exact absurd hc' (by simp)
          · rw [lookupA_eraseA_ne _ _ _ hid] at hc'
            obtain ⟨ch2, hch2, how2⟩ := h.tref id' c' hc'
            by_cases hcc : c = c'
            · subst hcc
              rw [hch2] at hch
              injection hch with hch
              subst hch
              exact ⟨_, hatc, how2⟩
            · exact ⟨ch2, by rw [hovne c' hcc]; exact hch2, how2⟩
        · intro t ht
          obtain ⟨ch2, hch2, how2⟩ := h.taskref t ht
          by_cases hcc : c = t.chan
          · subst hcc
            rw [hch2] at hch
            injection hch with hch
            subst hch
            exact ⟨_, hatc, how2⟩
          · exact ⟨ch2, by rw [hovne t.chan hcc]; exact hch2, how2⟩
        · intro c' ch2' hch2' v' hv'
          by_cases hcc : c = c'
          · subst hcc
            rw [hatc] at hch2'
            injection hch2' with hch2'
            subst hch2'
            simp only at hv'
            injection hv' with hv'
            subst hv'
            have howc : ({ ch with sender := SenderSt.sent, value := some v } :
              OneshotChan).owner = id := how
            rw [howc]
            exact List.mem_append_right _ (by simp)
          · rw [hovne c' hcc] at hch2'
            exact List.mem_append_left _ (h.sentEv c' ch2' hch2' v' hv')
        · intro id' hsome
          by_cases hid : id' = id
          · subst hid
            rw [lookupA_eraseA_self _ _ h.tkeys] at hsome
            exact absurd hsome (by simp)
          · rw [lookupA_eraseA_ne _ _ _ hid] at hsome
            exact List.mem_append_left _ (h.tReg id' hsome)
        · intro id'
          rw [regCount_append_other id' evs _ (fun i hh => Ev.noConfusion hh),
              sendOkCount_append_sendOk]
          have hcnt := h.sendCount id'
          unfold tLive at hcnt ⊢
          by_cases hid : id = id'
          · subst hid
            rw [lookupA_eraseA_self _ _ h.tkeys, if_pos (rfl : id = id)]
            rw [hc] at hcnt
            have hcnt' : sendOkCount id evs + 1 ≤ regCount id evs := hcnt
            show sendOkCount id evs + 1 + 0 ≤ regCount id evs
            omega
          · have hid' : id' ≠ id := fun he => hid he.symm
            rw [lookupA_eraseA_ne _ _ _ hid', if_neg hid]
            omega
        · intro id'
          rw [regCount_append_other id' evs _ (fun i hh => Ev.noConfusion hh),
              gotSomeCount_append_other id' evs _ (fun i w hh => Ev.noConfusion hh)]
          exact h.gotCount id'
        · exact p1_lift evs _ h.p1 (fun i R hee => Ev.noConfusion hee)
        · refine p8_lift evs _ h.p8 ?_
          intro i w hee
          injection hee with h1 h2
          subst h1
          exact h.tReg _ htl

theorem rmInv_getStart (st : ResponseMap) (evs : List Ev) (id : AWSRequestId)
    (h : RMInv st evs) :
    RMInv (rmStep st (.getStart id)).1
      (evs ++ ((rmStep st (.getStart id)).2).toList) := by
  cases hc : lookupA st.r_map id with
  | none =>
      rw [rmStep_getStart_none st id hc]
      exact rmInv_neutral_ev st evs _ h
        (fun id' hh => Ev.noConfusion hh)
        (fun id' v' hh => Ev.noConfusion hh)
        (fun id' v' hh => by
          injection hh with h1 h2
          exact Option.noConfusion h2)
  | some c =>
      obtain ⟨ch, hch, how⟩ := h.rref id c hc
      rw [rmStep_getStart_some st id c hc]
      show RMInv
        { st with r_map := eraseA st.r_map id,
                  chans := modifyL st.chans c
                    (fun x => { x with recv := RecvSt.awaiting }),
                  tasks := st.tasks ++ [⟨id, c, false⟩] }
        (evs ++ [])
      rw [List.append_nil]
      have hrl : (lookupA st.r_map id).isSome := by rw [hc]; rfl
      have hov := ov_modifyL st.chans c
        (fun x => { x with recv := RecvSt.awaiting }) (fun x => rfl)
      refine ⟨nodupKeys_eraseA _ _ h.rkeys, h.tkeys, ?_, ?_, ?_, ?_,
        h.tReg, ?_, ?_, h.p1, h.p8⟩
      · intro id' c' hc'
        by_cases hid : id' = id
        · rw [hid, lookupA_eraseA_self _ _ h.rkeys] at hc'
          exact absurd hc' (by simp)
        · rw [lookupA_eraseA_ne _ _ _ hid] at hc'
          obtain ⟨ch2, hch2, how2⟩ := h.rref id' c' hc'
          obtain ⟨ch2', hch2', how2', -⟩ := ov_some_transfer _ _ c' (hov c') ch2 hch2
          exact ⟨ch2', hch2', how2'.trans how2⟩
      · intro id' c' hc'
        obtain ⟨ch2, hch2, how2⟩ := h.tref id' c' hc'
        obtain ⟨ch2', hch2', how2', -⟩ := ov_some_transfer _ _ c' (hov c') ch2 hch2
        exact ⟨ch2', hch2', how2'.trans how2⟩
      · intro t ht
        rcases List.mem_append.mp ht with ht' | ht'
        · obtain ⟨ch2, hch2, how2⟩ := h.taskref t ht'
          obtain ⟨ch2', hch2', how2', -⟩ := ov_some_transfer _ _ _ (hov t.chan) ch2 hch2
          exact ⟨ch2', hch2', how2'.trans how2⟩
        · have hteq : t = ⟨id, c, false⟩ := by simpa using ht'
          subst hteq
          obtain ⟨ch2', hch2', how2', -⟩ := ov_some_transfer _ _ c (hov c) ch hch
          exact ⟨ch2', hch2', how2'.trans how⟩
      · intro c' ch2' hch2' v' hv'
        obtain ⟨ch2, hch2, how2, hval2⟩ := ov_some_transfer _ _ c' (hov c').symm ch2' hch2'
        rw [← how2]
        exact h.sentEv c' ch2 hch2 v' (hval2.trans hv')
      · intro id'
        exact h.sendCount id'
      · intro id'
        have hcnt := h.gotCount id'
        unfold rLive pendingGets at hcnt ⊢
        rw [filter_length_append_single]
        simp only [List.filter_cons, List.filter_nil]
        by_cases hid : id' = id
        · rw [hid] at hcnt ⊢
          rw [lookupA_eraseA_self _ _ h.rkeys]
          rw [hc] at hcnt
          have hnew : (decide (id = id) && !false) = true := by simp
          rw [hnew]
          have hcnt' : gotSomeCount id evs + 1
              + (st.tasks.filter fun t => decide (t.reqId = id) && !t.done).length
              ≤ regCount id evs := hcnt
          show gotSomeCount id evs + 0
              + ((st.tasks.filter fun t => decide (t.reqId = id) && !t.done).length + 1)
              ≤ regCount id evs
          omega
        · rw [lookupA_eraseA_ne _ _ _ hid]
          have hnew : (decide ((⟨id, c, false⟩ : GetTask).reqId = id') && !false)
              = false := by
            simp only [Bool.and_eq_false_iff]
            left
            simpa using fun he => hid he.symm
          rw [hnew]
          simpa using hcnt

theorem rmStep_getResolve_none (st : ResponseMap) (i : Nat)
    (ht : st.tasks.get? i = none) : rmStep st (.getResolve i) = (st, none) := by
  have ht' : st.tasks[i]? = none := by
    rw [List.get?_eq_getElem?] at ht
    exact ht
  simp [rmStep, ht']

theorem rmStep_getResolve_done (st : ResponseMap) (i : Nat) (t : GetTask)
    (ht : st.tasks.get? i = some t) (hd : t.done = true) :
    rmStep st (.getResolve i) = (st, none) := by
  have ht' : st.tasks[i]? = some t := by
    rw [List.get?_eq_getElem?] at ht
    exact ht
  simp [rmStep, ht', hd]

theorem rmStep_getResolve_held (st : ResponseMap) (i : Nat) (t : GetTask)
    (ch : OneshotChan) (ht : st.tasks.get? i = some t) (hd : t.done = false)
    (hch : st.chans.get? t.chan = some ch) (hs : ch.sender = SenderSt.held) :
    rmStep st (.getResolve i) = (st, none) := by
  have ht' : st.tasks[i]? = some t := by
    rw [List.get?_eq_getElem?] at ht
    exact ht
  have hch' : st.chans[t.chan]? = some ch := by
    rw [List.get?_eq_getElem?] at hch
    exact hch
  simp [rmStep, ht', hd, hch', hs]

theorem rmStep_getResolve_sent (st : ResponseMap) (i : Nat) (t : GetTask)
    (ch : OneshotChan) (ht : st.tasks.get? i = some t) (hd : t.done = false)
    (hch : st.chans.get? t.chan = some ch) (hs : ch.sender = SenderSt.sent) :
    rmStep st (.getResolve i) =
      ({ st with tasks := modifyL st.tasks i (fun x => { x with done := true }),
                 chans := modifyL st.chans t.chan
                   (fun x => { x with recv := RecvSt.resolved }) },
       some (.got t.reqId ch.value)) := by
  have ht' : st.tasks[i]? = some t := by
    rw [List.get?_eq_getElem?] at ht
    exact ht
  have hch' : st.chans[t.chan]? = some ch := by
    rw [List.get?_eq_getElem?] at hch
    exact hch
  simp [rmStep, ht', hd, hch', hs]

theorem rmStep_getResolve_dropped (st : ResponseMap) (i : Nat) (t : GetTask)
    (ch : OneshotChan) (ht : st.tasks.get? i = some t) (hd : t.done = false)
    (hch : st.chans.get? t.chan = some ch) (hs : ch.sender = SenderSt.dropped) :
    rmStep st (.getResolve i) =
      ({ st with tasks := modifyL st.tasks i (fun x => { x with done := true }),
                 chans := modifyL st.chans t.chan
                   (fun x => { x with recv := RecvSt.resolved }) },
       some (.got t.reqId none)) := by
  have ht' : st.tasks[i]? = some t := by
    rw [List.get?_eq_getElem?] at ht
    exact ht
  have hch' : st.chans[t.chan]? = some ch := by
    rw [List.get?_eq_getElem?] at hch
    exact hch
  simp [rmStep, ht', hd, hch', hs]

theorem rmInv_resolveFire (st : ResponseMap) (evs : List Ev) (i : Nat)
    (t : GetTask) (ch : OneshotChan) (h : RMInv st evs)
    (ht : st.tasks.get? i = some t) (hd : t.done = false)
    (hch : st.chans.get? t.chan = some ch)
    (r : Option EventResponse) (hres : ∀ v, r = some v → ch.value = some v) :
    RMInv
      { st with tasks := modifyL st.tasks i (fun x => { x with done := true }),
                chans := modifyL st.chans t.chan
                  (fun x => { x with recv := RecvSt.resolved }) }
      (evs ++ [.got t.reqId r]) := by
  obtain ⟨ch0, hch0, how0⟩ := h.taskref t (mem_of_get? _ _ _ ht)
  rw [hch0] at hch
  injection hch with hcheq
  subst hcheq
  have hov := ov_modifyL st.chans t.chan
    (fun x => { x with recv := RecvSt.resolved }) (fun x => rfl)
  refine ⟨h.rkeys, h.tkeys, ?_, ?_, ?_, ?_, ?_, ?_, ?_, ?_, ?_⟩
  · intro id' c' hc'
    obtain ⟨ch2, hch2, how2⟩ := h.rref id' c' hc'
    obtain ⟨ch2', hch2', how2', -⟩ := ov_some_transfer _ _ c' (hov c') ch2 hch2
    exact ⟨ch2', hch2', how2'.trans how2⟩
  · intro id' c' hc'
    obtain ⟨ch2, hch2, how2⟩ := h.tref id' c' hc'
    obtain ⟨ch2', hch2', how2', -⟩ := ov_some_transfer _ _ c' (hov c') ch2 hch2
    exact ⟨ch2', hch2', how2'.trans how2⟩
  · intro t' ht'
    rcases mem_modifyL _ _ _ _ ht' with ht2 | ⟨a, ha, ht2⟩
    · obtain ⟨ch2, hch2, how2⟩ := h.taskref t' ht2
      obtain ⟨ch2', hch2', how2', -⟩ := ov_some_transfer _ _ _ (hov t'.chan) ch2 hch2
      exact ⟨ch2', hch2', how2'.trans how2⟩
    · rw [ht] at ha
      injection ha with ha
      subst ha
      subst ht2
      obtain ⟨ch2', hch2', how2', -⟩ := ov_some_transfer _ _ _ (hov t.chan) ch0 hch0
      exact ⟨ch2', hch2', how2'.trans how0⟩
  · intro c' ch2' hch2' v' hv'
    obtain ⟨ch2, hch2, how2, hval2⟩ := ov_some_transfer _ _ c' (hov c').symm ch2' hch2'
    rw [← how2]
    exact List.mem_append_left _ (h.sentEv c' ch2 hch2 v' (hval2.trans hv'))
  · intro id' hsome
    exact List.mem_append_left _ (h.tReg id' hsome)
  · intro id'
    rw [regCount_append_other id' evs _ (fun j hh => Ev.noConfusion hh),
        sendOkCount_append_other id' evs _ (fun j w hh => Ev.noConfusion hh)]
    exact h.sendCount id'
  · intro id'
    have hcnt : gotSomeCount id' evs
        + (if (lookupA st.r_map id').isSome then 1 else 0)
        + (st.tasks.filter (fun x => decide (x.reqId = id') && !x.done)).length
        ≤ regCount id' evs := h.gotCount id'
    show gotSomeCount id' (evs ++ [Ev.got t.reqId r])
        + (if (lookupA st.r_map id').isSome then 1 else 0)
        + ((modifyL st.tasks i (fun x => { x with done := true })).filter
            (fun x => decide (x.reqId = id') && !x.done)).length
        ≤ regCount id' (evs ++ [Ev.got t.reqId r])
    rw [regCount_append_other id' evs _ (fun j hh => Ev.noConfusion hh)]
    by_cases hid : t.reqId = id'
    · have hpend := filter_length_modifyL st.tasks i
        (fun x => { x with done := true })
        (fun x => decide (x.reqId = id') && !x.done) t ht
        (by simp [hid, hd]) (by simp)
      cases r with
      | none =>
          rw [gotSomeCount_append_other id' evs _ (fun j w hh => by
            injection hh with h1 h2
            exact Option.noConfusion h2)]
          omega
      | some v =>
          rw [gotSomeCount_append_gotSome, if_pos hid]
          omega
    · have hpend := filter_length_modifyL_skip st.tasks i
        (fun x => { x with done := true })
        (fun x => decide (x.reqId = id') && !x.done) t ht
        (by simp [hid]) (by simp [hid])
      cases r with
      | none =>
          rw [gotSomeCount_append_other id' evs _ (fun j w hh => by
            injection hh with h1 h2
            exact Option.noConfusion h2)]
          omega
      | some v =>
          rw [gotSomeCount_append_gotSome, if_neg hid]
          omega
  · refine p1_lift evs _ h.p1 ?_
    intro id' R hee
    injection hee with h1 h2
    have hv := hres R h2
    have := h.sentEv t.chan ch0 hch0 R hv
    rw [how0, h1] at this
    exact this
  · exact p8_lift evs _ h.p8 (fun j w hee => Ev.noConfusion hee)

theorem rmInv_getResolve (st : ResponseMap) (evs : List Ev) (i : Nat)
    (h : RMInv st evs) :
    RMInv (rmStep st (.getResolve i)).1
      (evs ++ ((rmStep st (.getResolve i)).2).toList) := by
  cases ht : st.tasks.get? i with
  | none =>
      rw [rmStep_getResolve_none st i ht]
      show RMInv st (evs ++ [])
      rw [List.append_nil]
      exact h
  | some t =>
      cases hd : t.done with
      | true =>
          rw [rmStep_getResolve_done st i t ht hd]
          show RMInv st (evs ++ [])
          rw [List.append_nil]
          exact h
      | false =>
          obtain ⟨ch, hch, how⟩ := h.taskref t (mem_of_get? _ _ _ ht)
          cases hs : ch.sender with
          | held =>
              rw [rmStep_getResolve_held st i t ch ht hd hch hs]
              show RMInv st (evs ++ [])
              rw [List.append_nil]
              exact h
          | sent =>
              rw [rmStep_getResolve_sent st i t ch ht hd hch hs]
              exact rmInv_resolveFire st evs i t ch h ht hd hch ch.value
                (fun v hv => hv)
          | dropped =>
              rw [rmStep_getResolve_dropped st i t ch ht hd hch hs]
              exact rmInv_resolveFire st evs i t ch h ht hd hch none
                (fun v hv => Option.noConfusion hv)

/-- Every reachable registry state, together with its event trace, satisfies
the invariant. -/
theorem rmRunFrom_inv (ops : List Op) :
    ∀ (st : ResponseMap) (evs : List Ev), RMInv st evs →
      RMInv (rmRunFrom st evs ops).1 (rmRunFrom st evs ops).2 := by
  induction ops with
  | nil => intro st evs h; exact h
  | cons op ops ih =>
      intro st evs h
      show RMInv (rmRunFrom (rmStep st op).1 (evs ++ ((rmStep st op).2).toList) ops).1
        (rmRunFrom (rmStep st op).1 (evs ++ ((rmStep st op).2).toList) ops).2
      refine ih _ _ ?_
      cases op with
      | register id => exact rmInv_register st evs id h
      | send id v => exact rmInv_send st evs id v h
      | getStart id => exact rmInv_getStart st evs id h
      | getResolve i => exact rmInv_getResolve st evs i h

theorem rmRun_inv (ops : List Op) : RMInv (rmRun ops).1 (rmRun ops).2 :=
  rmRunFrom_inv ops ResponseMap.new [] rmInv_init

/-! ## Orchestrator and worker-facing handlers (src/src/lib.rs lines 28-78) -/

/-- Outcome of a code path that may `panic!` or `unwrap()`. -/
inductive HandlerOutcome (α : Type)
  | ok (a : α)
  | panicked (msg : String)
deriving DecidableEq, Repr

/-- The final step of `rambda_handler` (src line 52):
`response_map.get_response(&aws_request_id).await.unwrap()`.  `unwrap()` on a
`None` (the registry's `gone` case) panics the task instead of producing an
error value. -/
def rambda_handler_await (r : Option EventResponse) :
    HandlerOutcome EventResponse :=
  match r with
  | some resp => .ok resp
  | none => .panicked "called Option unwrap on a None value"

/-- `invocation_next_handler` (src lines 57-65): forwards the received pair
and executes `panic!("request channel closed, removing request")` when `recv`
resolves to `None` (channel closed). -/
def invocation_next_handler (recvd : Option (AWSRequestId × RequestEvent)) :
    HandlerOutcome (AWSRequestId × RequestEvent) :=
  match recvd with
  | some p => .ok p
  | none => .panicked "request channel closed, removing request"

/-- Result of the orchestrator's try-send loop. -/
inductive SendLoopResult
  | sent (attempt : Nat)
  | panicked (msg : String)
  | looping
deriving DecidableEq, Repr

/-- The try-send loop of `rambda_handler` (src lines 38-45).  `full k` says
whether the k-th `send_request` attempt finds the rendezvous occupied (an
environment oracle standing for the concurrent consumer); `gen k` is the
result of the k-th `runtime_manager.generate()` call.  The body is a
`println!` log line followed by `generate().await.unwrap()`: an `Err` from
the generator is unwrapped and panics the invocation; on `Ok` the loop
retries immediately — the body contains no sleep.  `fuel` bounds the
unrolling; `looping` means the loop was still running after `fuel`
iterations. -/
def rambdaSendLoop (full : Nat → Bool) (gen : Nat → Except String Unit) :
    Nat → Nat → SendLoopResult
  | 0, _ => .looping
  | fuel + 1, k =>
      if full k then
        match gen k with
        | .error e => .panicked e
        | .ok _ => rambdaSendLoop full gen fuel (k + 1)
      else .sent k

/-- Result of the spec's version of the try-send loop; `sleeps` counts the
~100 ms sleeps taken. -/
inductive SpecLoopResult
  | sent (attempt sleeps : Nat)
  | looping (sleeps : Nat)
deriving DecidableEq, Repr

/-- Modelled from the spec: the try-send loop as §4.D step 2 words it —
while `try_send` returns `full`, request `Runtime.init()` (log but do not
fail on spawner errors), sleep ~100 ms, retry.  The generator's result is
inspected only for logging, so it never ends the loop. -/
def specSendLoop (full : Nat → Bool) (gen : Nat → Except String Unit) :
    Nat → Nat → Nat → SpecLoopResult
  | 0, _, s => .looping s
  | fuel + 1, k, s =>
      if full k then specSendLoop full gen fuel (k + 1) (s + 1)
      else .sent k s

/-! ## Runtime lifetime (src/src/lib.rs lines 362-377) -/

/-- The `u64` modulus. -/
def U64 : Nat := 2 ^ 64

/-- `Runtime` (src lines 362-371): `id`, `port`, and `start` (milliseconds at
spawn). -/
structure Runtime where
  id : String
  port : Nat
  start : Nat
deriving DecidableEq, Repr

/-- `Runtime::is_expired` (src lines 373-377): `now - self.start > 60 * 1000`,
where `-` is `u64` (wrapping) subtraction and the 60 s lifetime is a
hard-coded literal. -/
def Runtime.is_expired (r : Runtime) (now : Nat) : Bool :=
  (now + U64 - r.start) % U64 > 60 * 1000

/-- The expiry predicate as the spec words it: strict
`birth_time_ms + lifetime_ms < now_ms` with a configured lifetime constant. -/
def isExpiredSpec (lifetime_ms now_ms birth_time_ms : Nat) : Bool :=
  birth_time_ms + lifetime_ms < now_ms

/-! ## Process generator (src/src/lib.rs lines 260-288) -/

/-- `RuntimeProcessGenerator` (src lines 260-262): holds the assigned ports. -/
structure RuntimeProcessGenerator where
  assign_ports : List Nat
deriving DecidableEq, Repr

/-- `RuntimeProcessGenerator::BASE_PORT` (src line 265). -/
def RuntimeProcessGenerator.BASE_PORT : Nat := 8080

/-- `RuntimeProcessGenerator::generate` (src lines 272-278): computes
`port = BASE_PORT + assign_ports.len()` in `u16`, reads the clock, and
returns `Runtime::new(RuntimeId(format!("runtime_{port}")), port, now)`.  It
launches no process, sets no environment variable and captures no pid. -/
def RuntimeProcessGenerator.generate (g : RuntimeProcessGenerator)
    (now : Nat) : Runtime :=
  let port := (RuntimeProcessGenerator.BASE_PORT + g.assign_ports.length) % 2 ^ 16
  { id := "runtime_" ++ toString port, port := port, start := now }

/-- `RuntimeProcessGenerator::kill` (src lines 279-282): the body is a
comment and `Ok(())`; nothing is terminated. -/
def RuntimeProcessGenerator.kill (_g : RuntimeProcessGenerator)
    (_runtime_id : String) : Except String Unit := .ok ()

/-! ## Worker garbage collection -/

/-- `Worker` as §3 of the spec defines it: `{worker_id, birth_time_ms}`. -/
structure Worker where
  worker_id : String
  birth_time_ms : Nat
deriving DecidableEq, Repr

/-- Modelled from the spec: `RuntimeManager::gc` is absent from src —
`gc_loop` (src lines 303-314) has a fully commented-out body, and
bin/runtime.rs calls `manager.gc()`, `manager.init()` and a lifetime-taking
constructor that the library under src does not define.  Following §4.C: one
gc tick identifies every roster entry with
`birth_time_ms + lifetime_ms < now_ms`, kills each via the spawner, removes
the killed entries, and, if the roster is then empty, calls `init()` exactly
once; `initResult` is the outcome of that single spawner call.  Returns the
pair (killed entries, new roster). -/
def gcTick (lifetime_ms now_ms : Nat) (roster : List Worker)
    (initResult : Except String Worker) : List Worker × List Worker :=
  let expired := roster.filter (fun w => w.birth_time_ms + lifetime_ms < now_ms)
  let survivors :=
    roster.filter (fun w => ¬ (w.birth_time_ms + lifetime_ms < now_ms))
  let roster' :=
    if survivors.isEmpty then
      match initResult with
      | .ok w => [w]
      | .error _ => []
    else survivors
  (expired, roster')

/-! ## Claim theorems -/

/-- C1: if awaiting the response for an invocation id returns a response `R`
(a `got id (some R)` event — `get_response` resolving with `Some`), then an
earlier deposit (`send_response`) for that same id succeeded with exactly
`R`; hence the response `rambda_handler` awaits and returns for the id it
minted is the one a worker deposited for it. -/
theorem get_response_returns_deposited (ops : List Op) (k : Nat)
    (id : AWSRequestId) (R : EventResponse)
    (hk : ((rmRun ops).2).get? k = some (.got id (some R))) :
    ∃ j, j < k ∧ ((rmRun ops).2).get? j = some (.sendOk id R) :=
  (rmRun_inv ops).p1 k id R hk

/-- Witness for `get_response_returns_deposited` on the canonical
register → deposit → await trace. -/
theorem get_response_returns_deposited_witness :
    ∃ j, j < 2 ∧
      ((rmRun [Op.register ⟨"c1"⟩, Op.send ⟨"c1"⟩ ⟨[("key", "r1")]⟩,
        Op.getStart ⟨"c1"⟩, Op.getResolve 0]).2).get? j
        = some (.sendOk ⟨"c1"⟩ ⟨[("key", "r1")]⟩) :=
  get_response_returns_deposited
    [Op.register ⟨"c1"⟩, Op.send ⟨"c1"⟩ ⟨[("key", "r1")]⟩,
     Op.getStart ⟨"c1"⟩, Op.getResolve 0] 2 ⟨"c1"⟩ ⟨[("key", "r1")]⟩ (by decide)

/-- C8: a successful worker deposit for an id can only happen after the
orchestrator registered the mailbox for that id: every `sendOk` event is
preceded by a `registered` event for the same id (a deposit attempted before
registration finds no sender half and fails with an error instead). -/
theorem deposit_after_register (ops : List Op) (k : Nat) (id : AWSRequestId)
    (v : EventResponse)
    (hk : ((rmRun ops).2).get? k = some (.sendOk id v)) :
    ∃ j, j < k ∧ ((rmRun ops).2).get? j = some (.registered id) :=
  (rmRun_inv ops).p8 k id v hk

/-- Witness for `deposit_after_register`. -/
theorem deposit_after_register_witness :
    ∃ j, j < 1 ∧
      ((rmRun [Op.register ⟨"c8"⟩, Op.send ⟨"c8"⟩ ⟨[]⟩]).2).get? j
        = some (.registered ⟨"c8"⟩) :=
  deposit_after_register [Op.register ⟨"c8"⟩, Op.send ⟨"c8"⟩ ⟨[]⟩] 1
    ⟨"c8"⟩ ⟨[]⟩ (by decide)

/-- C4: for an id registered at most once, at most one deposit succeeds and
at most one await returns a response; and a `send_response` finding no sender
half (never registered, or already taken) returns the "Sender already taken"
error and leaves the registry unchanged. -/
theorem at_most_one_deposit_and_await (ops : List Op) (id : AWSRequestId)
    (hreg : regCount id (rmRun ops).2 ≤ 1) :
    sendOkCount id (rmRun ops).2 ≤ 1 ∧ gotSomeCount id (rmRun ops).2 ≤ 1 ∧
    ∀ (st : ResponseMap) (v : EventResponse), lookupA st.t_map id = none →
      st.send_response id v = (st, .error "Sender already taken") := by
  refine ⟨?_, ?_, ?_⟩
  · have hc := (rmRun_inv ops).sendCount id
    unfold tLive at hc
    split at hc <;> omega
  · have hc := (rmRun_inv ops).gotCount id
    unfold rLive at hc
    split at hc <;> omega
  · intro st v hnone
    simp [ResponseMap.send_response, hnone]

/-- Witness for `at_most_one_deposit_and_await`: a trace with a double
deposit attempt, and a deposit against the empty registry. -/
theorem at_most_one_deposit_and_await_witness :
    sendOkCount ⟨"c4"⟩ (rmRun [Op.register ⟨"c4"⟩, Op.send ⟨"c4"⟩ ⟨[]⟩,
      Op.send ⟨"c4"⟩ ⟨[]⟩, Op.getStart ⟨"c4"⟩, Op.getResolve 0]).2 ≤ 1 ∧
    gotSomeCount ⟨"c4"⟩ (rmRun [Op.register ⟨"c4"⟩, Op.send ⟨"c4"⟩ ⟨[]⟩,
      Op.send ⟨"c4"⟩ ⟨[]⟩, Op.getStart ⟨"c4"⟩, Op.getResolve 0]).2 ≤ 1 ∧
    ResponseMap.new.send_response ⟨"c4"⟩ ⟨[]⟩
      = (ResponseMap.new, .error "Sender already taken") := by
  have h := at_most_one_deposit_and_await
    [Op.register ⟨"c4"⟩, Op.send ⟨"c4"⟩ ⟨[]⟩, Op.send ⟨"c4"⟩ ⟨[]⟩,
     Op.getStart ⟨"c4"⟩, Op.getResolve 0] ⟨"c4"⟩ (by decide)
  exact ⟨h.1, h.2.1, h.2.2 ResponseMap.new ⟨[]⟩ rfl⟩

/-- C10: re-registering an id replaces both halves in the two maps with a
fresh pair: an in-flight `get_response` awaiting the old mailbox resolves to
`None` (gone) because its sender half is dropped by the `t_map` insert, the
maps afterwards point at the new channel, and when no await was in flight
both old halves are dropped outright. -/
theorem re_register_drops_old_mailbox :
    ((rmRun [Op.register ⟨"c10"⟩, Op.getStart ⟨"c10"⟩, Op.register ⟨"c10"⟩,
        Op.getResolve 0]).2
      = [.registered ⟨"c10"⟩, .registered ⟨"c10"⟩, .got ⟨"c10"⟩ none]) ∧
    (lookupA (rmRun [Op.register ⟨"c10"⟩, Op.getStart ⟨"c10"⟩,
        Op.register ⟨"c10"⟩, Op.getResolve 0]).1.r_map ⟨"c10"⟩ = some 1) ∧
    (lookupA (rmRun [Op.register ⟨"c10"⟩, Op.getStart ⟨"c10"⟩,
        Op.register ⟨"c10"⟩, Op.getResolve 0]).1.t_map ⟨"c10"⟩ = some 1) ∧
    ((rmRun [Op.register ⟨"c10"⟩, Op.getStart ⟨"c10"⟩, Op.register ⟨"c10"⟩,
        Op.getResolve 0]).1.chans.get? 0
      = some ⟨⟨"c10"⟩, .dropped, .resolved, none⟩) ∧
    ((rmRun [Op.register ⟨"c10"⟩, Op.register ⟨"c10"⟩]).1.chans.get? 0
      = some ⟨⟨"c10"⟩, .dropped, .dropped, none⟩) := by
  refine ⟨by decide, by decide, by decide, by decide, by decide⟩

/-- C3: the code panics rather than returning an error value on the two
recoverable conditions: a reachable trace makes `get_response` resolve to
`None` (gone), which `rambda_handler` line 52 `unwrap()`s into a panic, and
`invocation_next_handler` executes `panic!` when the request channel's `recv`
returns `None`. -/
theorem core_panics_on_gone_and_closed :
    ((rmRun [Op.register ⟨"c3"⟩, Op.getStart ⟨"c3"⟩, Op.register ⟨"c3"⟩,
        Op.getResolve 0]).2).get? 2 = some (.got ⟨"c3"⟩ none) ∧
    rambda_handler_await none
      = .panicked "called Option unwrap on a None value" ∧
    invocation_next_handler none
      = .panicked "request channel closed, removing request" := by
  exact ⟨by decide, rfl, rfl⟩

/-- C2 counterexample: with the rendezvous permanently full and the first
`generate()` failing, the try-send loop of `rambda_handler` panics — a
spawner error does fail the invocation, and no sleep is ever taken — while
the loop as the claim words it would still be retrying (three sleeps in). -/
theorem sendLoop_panics_on_spawn_error :
    rambdaSendLoop (fun _ => true) (fun _ => .error "spawn failed") 3 0
      = .panicked "spawn failed" ∧
    specSendLoop (fun _ => true) (fun _ => .error "spawn failed") 3 0 0
      = .looping 3 := by
  exact ⟨rfl, rfl⟩

/-- C2 amended: whenever try-send reports full the handler logs and requests
runtime generation, unwrapping the result — generation failure panics the
invocation, generation success retries immediately with no sleep in the
body — a non-full attempt exits the loop with the pair sent, and the loop has
no iteration cap: with the channel always full and generation always
succeeding it is still running after any amount of fuel. -/
theorem sendLoop_amended (full : Nat → Bool) (gen : Nat → Except String Unit)
    (fuel k : Nat) :
    (full k = false → rambdaSendLoop full gen (fuel + 1) k = .sent k) ∧
    (full k = true → ∀ e, gen k = .error e →
      rambdaSendLoop full gen (fuel + 1) k = .panicked e) ∧
    (full k = true → gen k = .ok () →
      rambdaSendLoop full gen (fuel + 1) k
        = rambdaSendLoop full gen fuel (k + 1)) ∧
    ((∀ j, full j = true) → (∀ j, gen j = .ok ()) →
      rambdaSendLoop full gen fuel k = .looping) := by
  refine ⟨?_, ?_, ?_, ?_⟩
  · intro hf
    simp [rambdaSendLoop, hf]
  · intro hf e hg
    simp [rambdaSendLoop, hf, hg]
  · intro hf hg
    simp [rambdaSendLoop, hf, hg]
  · intro hf hg
    induction fuel generalizing k with
    | zero => rfl
    | succ n ih => simp [rambdaSendLoop, hf k, hg k, ih]

/-- Witness for `sendLoop_amended` at concrete oracles. -/
theorem sendLoop_amended_witness :
    rambdaSendLoop (fun _ => false) (fun _ => .ok ()) 1 0 = .sent 0 ∧
    rambdaSendLoop (fun _ => true) (fun _ => .error "x") 1 0 = .panicked "x" ∧
    rambdaSendLoop (fun _ => true) (fun _ => .ok ()) 5 0 = .looping := by
  refine ⟨(sendLoop_amended (fun _ => false) (fun _ => .ok ()) 0 0).1 rfl,
    (sendLoop_amended (fun _ => true) (fun _ => .error "x") 0 0).2.1 rfl "x" rfl,
    (sendLoop_amended (fun _ => true) (fun _ => .ok ()) 5 0).2.2.2
      (fun j => rfl) (fun j => rfl)⟩

/-- C6 counterexample: with the spec's reference lifetime of 10 s a worker
born at 0 would be killable from 10 001 ms, but `Runtime::is_expired`
hard-codes 60 000 ms: at `now = 10001` the code says not expired while the
spec predicate at the reference lifetime says expired. -/
theorem is_expired_not_ten_seconds :
    Runtime.is_expired ⟨"runtime_8080", 8080, 0⟩ 10001 = false ∧
    isExpiredSpec 10000 10001 0 = true := by
  exact ⟨by decide, by decide⟩

/-- C6 amended: in the no-wrap range (`start ≤ now < 2^64`), `is_expired`
holds exactly when `start + 60000 < now` — the strict threshold the claim
describes, but with the lifetime hard-coded to 60 000 ms instead of a
configured constant (reference 10 s) — so a worker born at `t₀` is killable
exactly from `t₀ + 60001` on. -/
theorem is_expired_iff_hardcoded_sixty_seconds (r : Runtime) (now : Nat) :
    (r.start ≤ now → now < U64 →
      (r.is_expired now = true ↔ r.start + 60 * 1000 < now)) ∧
    (r.start + 60 * 1000 + 1 < U64 →
      r.is_expired (r.start + 60 * 1000 + 1) = true ∧
      r.is_expired (r.start + 60 * 1000) = false) := by
  have key : ∀ m, r.start ≤ m → m < U64 →
      (m + U64 - r.start) % U64 = m - r.start := by
    intro m hm hmu
    have hsplit : m + U64 - r.start = (m - r.start) + U64 := by omega
    rw [hsplit, Nat.add_mod_right, Nat.mod_eq_of_lt (by omega)]
  refine ⟨?_, ?_⟩
  · intro h1 h2
    unfold Runtime.is_expired
    rw [key now h1 h2]
    simp only [gt_iff_lt, decide_eq_true_eq]
    omega
  · intro hu
    constructor
    · unfold Runtime.is_expired
      rw [key _ (by omega) (by omega)]
      simp only [gt_iff_lt, decide_eq_true_eq]
      omega
    · unfold Runtime.is_expired
      rw [key _ (by omega) (by omega)]
      simp only [gt_iff_lt, decide_eq_false_iff_not]
      omega

/-- Witness for `is_expired_iff_hardcoded_sixty_seconds` at a worker born at
time 0. -/
theorem is_expired_iff_hardcoded_sixty_seconds_witness :
    Runtime.is_expired ⟨"r", 8080, 0⟩ 60001 = true ∧
    Runtime.is_expired ⟨"r", 8080, 0⟩ 60000 = false := by
  have h := (is_expired_iff_hardcoded_sixty_seconds ⟨"r", 8080, 0⟩ 0).2
    (by decide)
  exact ⟨h.1, h.2⟩

/-- C7 (gc modelled from the spec, which src lacks): after a gc tick entered
at `now_ms`, the roster holds no worker with `birth + lifetime < now_ms`;
every expired entry is in the killed list handed to the spawner and is out of
the roster; provided the single `init()` performed when the roster empties
succeeds with a fresh worker, the roster is non-empty; and `init` is invoked
exactly when the survivor set is empty, contributing exactly that one
worker. -/
theorem gcTick_reaps_and_refills (lifetime_ms now_ms : Nat)
    (roster : List Worker) (wnew : Worker)
    (hfresh : now_ms ≤ wnew.birth_time_ms + lifetime_ms) :
    (∀ w ∈ (gcTick lifetime_ms now_ms roster (.ok wnew)).2,
      ¬ (w.birth_time_ms + lifetime_ms < now_ms)) ∧
    (∀ w ∈ roster, w.birth_time_ms + lifetime_ms < now_ms →
      w ∈ (gcTick lifetime_ms now_ms roster (.ok wnew)).1 ∧
      w ∉ (gcTick lifetime_ms now_ms roster (.ok wnew)).2) ∧
    (gcTick lifetime_ms now_ms roster (.ok wnew)).2 ≠ [] ∧
    ((roster.filter
        (fun w => ¬ (w.birth_time_ms + lifetime_ms < now_ms))).isEmpty = true →
      (gcTick lifetime_ms now_ms roster (.ok wnew)).2 = [wnew]) := by
  have hst : (gcTick lifetime_ms now_ms roster (.ok wnew)).2 =
      if (roster.filter
        (fun w => ¬ (w.birth_time_ms + lifetime_ms < now_ms))).isEmpty then
        [wnew]
      else roster.filter (fun w => ¬ (w.birth_time_ms + lifetime_ms < now_ms)) :=
    rfl
  have hkl : (gcTick lifetime_ms now_ms roster (.ok wnew)).1 =
      roster.filter (fun w => w.birth_time_ms + lifetime_ms < now_ms) := rfl
  refine ⟨?_, ?_, ?_, ?_⟩
  · intro w hw
    rw [hst] at hw
    by_cases hs : (roster.filter
        (fun w => ¬ (w.birth_time_ms + lifetime_ms < now_ms))).isEmpty
    · rw [if_pos hs] at hw
      have hweq : w = wnew := by simpa using hw
      subst hweq
      omega
    · rw [if_neg hs] at hw
      have := (List.mem_filter.mp hw).2
      simpa using this
  · intro w hw hexp
    constructor
    · rw [hkl]
      exact List.mem_filter.mpr ⟨hw, by simpa using hexp⟩
    · intro hw'
      rw [hst] at hw'
      by_cases hs : (roster.filter
          (fun w => ¬ (w.birth_time_ms + lifetime_ms < now_ms))).isEmpty
      · rw [if_pos hs] at hw'
        have hweq : w = wnew := by simpa using hw'
        subst hweq
        omega
      · rw [if_neg hs] at hw'
        have := (List.mem_filter.mp hw').2
        simp at this
        omega
  · rw [hst]
    by_cases hs : (roster.filter
        (fun w => ¬ (w.birth_time_ms + lifetime_ms < now_ms))).isEmpty
    · rw [if_pos hs]
      simp
    · rw [if_neg hs]
      intro hnil
      rw [hnil] at hs
      exact hs rfl
  · intro hs
    rw [hst, if_pos hs]

/-- Witness for `gcTick_reaps_and_refills`: a 10 s lifetime, one worker born
at 0, the tick entering at 20 000 ms, `init` returning a fresh worker. -/
theorem gcTick_reaps_and_refills_witness :
    (gcTick 10000 20000 [⟨"w0", 0⟩] (.ok ⟨"w1", 20000⟩)).2 ≠ [] ∧
    (⟨"w0", 0⟩ : Worker) ∈ (gcTick 10000 20000 [⟨"w0", 0⟩]
      (.ok ⟨"w1", 20000⟩)).1 := by
  have h := gcTick_reaps_and_refills 10000 20000 [⟨"w0", 0⟩] ⟨"w1", 20000⟩
    (by decide)
  exact ⟨h.2.2.1, (h.2.1 ⟨"w0", 0⟩ (by decide) (by decide)).1⟩

/-- C9: evaluating the process generator at its first call (`assign_ports`
empty): `generate` returns a `Runtime` whose id is the synthetic string
"runtime_8080" derived from the port — not an OS pid — and whose state
records no command run and no environment variable set, and `kill` is a no-op
returning ok without terminating anything.  The lib code contradicts its own
caller (bin/runtime.rs constructs this generator with a command and
arguments), so the claim reflects the intent and the code is the slip. -/
theorem generate_returns_port_id_and_kill_noop :
    RuntimeProcessGenerator.generate ⟨[]⟩ 1234
      = { id := "runtime_8080", port := 8080, start := 1234 } ∧
    RuntimeProcessGenerator.kill ⟨[]⟩ "8080" = .ok () := by
  exact ⟨by decide, rfl⟩
